import Mathlib

/-!
Shallow embedding of the Adaptive Classification Engine of
`src/python/ner_classifier.py` (class `AdaptiveNERClassifier`), together
with theorems settling the specification claims about it.

Modelling conventions:
* a Python string is a `List Char` (`Text`); Python's `kw in text` is
  list-infix `kw <:+: text`, `str.lower()` is `List.map Char.toLower`,
  and `len(text.split())` is `wordCount` (maximal runs of non-whitespace
  characters, empties dropped, exactly like `str.split()` with no
  arguments);
* Python floats are `ℚ` (all arithmetic in the engine is ratios of small
  integers);
* the yaml rule dictionary `self.categories` is an association list in
  insertion order; `info.get('weight', 1.0)` is an `Option ℚ` read with
  default 1;
* `max(matches, key=matches.get)` keeps the first key attaining the
  maximal value over insertion order, which `pickBest` reproduces;
* the sklearn objects are abstracted: the fitted state of
  `self.vectorizer` is recorded as the corpus it was last fitted on
  (`vectorizerFit`, `none` before any fit), `self.ml_classifier` is an
  `Option MLModel` whose `predict`/`proba` fields abstract
  `classifier.predict / classifier.predict_proba` composed with
  `vectorizer.transform`, the `RandomForestClassifier` training is an
  abstract parameter `trainF`, and `DBSCAN(...).fit_predict` is an
  abstract parameter `dbscan` returning one integer label per input
  (−1 meaning noise); Python's `set(labels)` is `List.dedup` (iteration
  order of a Python set is unspecified, and no claim depends on it).
-/

namespace NERC

abbrev Text : Type := List Char

/-- `text.lower()` on the character-list model of a Python string. -/
def lower (t : Text) : Text := t.map Char.toLower

/-- One value of the yaml mapping `categories`: a keyword list and an
optional weight (`info.get('weight', 1.0)`). -/
structure CategoryRule where
  keywords : List Text
  weight : Option ℚ
deriving DecidableEq

/-- The loaded rule configuration: the `categories` mapping in insertion
order plus the global `unknown_threshold`. -/
structure RuleSet where
  categories : List (String × CategoryRule)
  unknown_threshold : ℚ
deriving DecidableEq

/-- `len([w for w in text.split()])`-style word splitting: accumulate the
current run of non-whitespace characters (reversed) and emit it at each
whitespace boundary; empty runs are dropped, as `str.split()` does. -/
def wordsAux : Text → Text → List Text
  | cur, [] => if cur = [] then [] else [cur.reverse]
  | cur, c :: cs =>
      if c.isWhitespace then
        if cur = [] then wordsAux [] cs else cur.reverse :: wordsAux [] cs
      else wordsAux (c :: cur) cs

/-- `text.split()`. -/
def words (t : Text) : List Text := wordsAux [] t

/-- `len(text.split())`. -/
def wordCount (t : Text) : ℕ := (words t).length

/-- `sum(1 for kw in info['keywords'] if kw in text_lower)`: the number of
keyword list entries occurring as a substring of the lowercased text. -/
def catScore (tl : Text) (r : CategoryRule) : ℕ :=
  r.keywords.countP (fun kw => decide (kw <:+: tl))

/-- `score * info.get('weight', 1.0)`. -/
def weightedScore (tl : Text) (r : CategoryRule) : ℚ :=
  (catScore tl r : ℚ) * r.weight.getD 1

/-- The `matches` dictionary of `keyword_match`, in insertion order:
one entry per category whose raw keyword count is positive. -/
def scoreList (rs : RuleSet) (tl : Text) : List (String × ℚ) :=
  rs.categories.filterMap (fun p =>
    if 0 < catScore tl p.2 then some (p.1, weightedScore tl p.2) else none)

/-- `max(matches, key=matches.get)` together with its value: fold keeping
the first entry attaining the maximal value; `none` on the empty dict. -/
def pickBest : List (String × ℚ) → Option (String × ℚ)
  | [] => none
  | x :: xs => some (xs.foldl (fun b y => if b.2 < y.2 then y else b) x)

/-- `AdaptiveNERClassifier.keyword_match`: best category and its weighted
score divided by the word count, or `("Unknown", 0.0)` when no keyword of
any category occurs in the lowercased text.  (In `ℚ`, division by zero
yields the junk value 0; `keyword_matchChecked` tracks where the Python
code would actually raise `ZeroDivisionError`.) -/
def keyword_match (rs : RuleSet) (text : Text) : String × ℚ :=
  match pickBest (scoreList rs (lower text)) with
  | some bc => (bc.1, bc.2 / (wordCount text : ℚ))
  | none => ("Unknown", 0)

/-- `keyword_match` with the division guarded: returns `none` exactly when
the Python code reaches `matches[best_category] / len(text.split())` with a
zero denominator (a `ZeroDivisionError`). -/
def keyword_matchChecked (rs : RuleSet) (text : Text) : Option (String × ℚ) :=
  match pickBest (scoreList rs (lower text)) with
  | some bc =>
      if wordCount text = 0 then none
      else some (bc.1, bc.2 / (wordCount text : ℚ))
  | none => some ("Unknown", 0)

/-- Abstraction of the trained `RandomForestClassifier` applied through the
fitted `TfidfVectorizer`: per-narration predicted class and maximal class
probability (`predict` / `predict_proba(...).max(axis=1)`). -/
structure MLModel where
  predict : Text → String
  proba : Text → ℚ

/-- The mutable state of one `AdaptiveNERClassifier` instance: the loaded
rules, the fitted state of `self.vectorizer` (the corpus it was last
fitted on, `none` before any `fit_transform`), and `self.ml_classifier`
(`None` until `train_ml_model` succeeds). -/
structure Engine where
  rules : RuleSet
  vectorizerFit : Option (List Text)
  ml_classifier : Option MLModel

/-- One input row of the batch dataframe: the columns the code reads. -/
structure InRow where
  narration : Text
  amount : ℚ
deriving DecidableEq

/-- One row of the dataframe built by `classify_batch`: exactly the fields
the code writes (`narration`, `amount`, `category`, `confidence`,
`method`) — the code produces no `needs_review` column. -/
structure OutRow where
  narration : Text
  amount : ℚ
  category : String
  confidence : ℚ
  method : String
deriving DecidableEq

/-- The rule-based row built for each input in the first loop of
`classify_batch`. -/
def ruleRow (rs : RuleSet) (r : InRow) : OutRow :=
  { narration := r.narration
    amount := r.amount
    category := (keyword_match rs r.narration).1
    confidence := (keyword_match rs r.narration).2
    method := "rule-based" }

/-- The overwrite `_ml_classify` performs on one selected row: category and
confidence from the model, method set to `"ml-based"`; narration and
amount kept. -/
def mlRow (m : MLModel) (r : OutRow) : OutRow :=
  { r with
    category := m.predict r.narration
    confidence := m.proba r.narration
    method := "ml-based" }

/-- `AdaptiveNERClassifier.classify_batch`: rule-classify every row, then,
if a trained model exists and at least one row has confidence below
`unknown_threshold`, overwrite exactly those rows via `_ml_classify`. -/
def classify_batch (e : Engine) (df : List InRow) : List OutRow :=
  let base := df.map (ruleRow e.rules)
  match e.ml_classifier with
  | none => base
  | some m =>
      if 0 < (base.filter (fun r => r.confidence < e.rules.unknown_threshold)).length then
        base.map (fun r =>
          if r.confidence < e.rules.unknown_threshold then mlRow m r else r)
      else base

/-- `AdaptiveNERClassifier.train_ml_model`: drop `"Unknown"` rows; if fewer
than 10 remain, print and return leaving all state untouched; otherwise
refit the vectorizer on the filtered narrations and install the classifier
produced by the (abstract) random-forest fit `trainF`. -/
def train_ml_model (trainF : List OutRow → MLModel) (e : Engine)
    (df : List OutRow) : Engine :=
  let train_df := df.filter (fun r => r.category ≠ "Unknown")
  if train_df.length < 10 then e
  else
    { e with
      vectorizerFit := some (train_df.map (fun r => r.narration))
      ml_classifier := some (trainF train_df) }

/-- `[unknown_texts[i] for i, l in enumerate(labels) if l == label]`. -/
def clusterTexts (texts : List Text) (labels : List ℤ) (lab : ℤ) : List Text :=
  ((texts.zip labels).filter (fun p => p.2 = lab)).map (fun p => p.1)

/-- `AdaptiveNERClassifier.discover_new_categories`: below 5 texts return
the empty mapping; otherwise `self.vectorizer.fit_transform(unknown_texts)`
REFITS the shared vectorizer (recorded in the returned engine state), runs
the abstract `dbscan`, and builds `{"NewCategory_<label>": member_texts}`
for every non-noise label.  The returned value per cluster is the bare
list of member texts. -/
def discover_new_categories (dbscan : List Text → List ℤ) (e : Engine)
    (unknown_texts : List Text) : Engine × List (String × List Text) :=
  if unknown_texts.length < 5 then (e, [])
  else
    let e2 := { e with vectorizerFit := some unknown_texts }
    let labels := dbscan unknown_texts
    (e2, labels.dedup.filterMap (fun lab =>
      if lab = -1 then none
      else some ("NewCategory_" ++ toString lab, clusterTexts unknown_texts labels lab)))

/-- The best raw weighted score of a text under a rule set: the value
`keyword_match` divides by the word count (0 when nothing matches). -/
def bestScore (rs : RuleSet) (text : Text) : ℚ :=
  match pickBest (scoreList rs (lower text)) with
  | some bc => bc.2
  | none => 0

/-! Concrete test fixtures (the rule set of `tests/conftest.py` and small
engines/inputs), used by counterexamples and witnesses. -/

/-- The `Healthcare` rule of the `tests/conftest.py` fixture. -/
def hcRule : CategoryRule :=
  { keywords := ["pharmacy".toList, "doctor".toList, "hospital".toList,
                 "medical".toList]
    weight := some (3/2) }

/-- The `Groceries` rule of the `tests/conftest.py` fixture. -/
def groRule : CategoryRule :=
  { keywords := ["walmart".toList, "grocery".toList, "supermarket".toList,
                 "food".toList]
    weight := some 1 }

/-- The `Transportation` rule of the `tests/conftest.py` fixture. -/
def traRule : CategoryRule :=
  { keywords := ["uber".toList, "taxi".toList, "lyft".toList, "gas".toList]
    weight := some 1 }

/-- The rule set written by the `keyword_rules_path` fixture of
`tests/conftest.py`. -/
def testRS : RuleSet :=
  { categories := [("Healthcare", hcRule), ("Groceries", groRule),
                   ("Transportation", traRule)]
    unknown_threshold := 3/10 }

/-- The rule of the spec's worked example:
`Healthcare: {keywords: [pharmacy, doctor], weight: 1.5}`. -/
def healthRule : CategoryRule :=
  { keywords := ["pharmacy".toList, "doctor".toList], weight := some (3/2) }

/-- A rule set holding only `healthRule`. -/
def healthRS : RuleSet :=
  { categories := [("Healthcare", healthRule)], unknown_threshold := 3/10 }

/-- The one-category rule used to refute the monotonicity claim. -/
def monoRule : CategoryRule :=
  { keywords := ["a".toList, "b".toList, "c".toList], weight := none }

/-- A rule set holding only `monoRule`. -/
def monoRS : RuleSet :=
  { categories := [("C", monoRule)], unknown_threshold := 3/10 }

/-- An engine that has never been trained. -/
def freshEngine : Engine :=
  { rules := testRS, vectorizerFit := none, ml_classifier := none }

/-- A dummy trained model (the concrete values are irrelevant to the frame
properties it witnesses). -/
def dummyModel : MLModel :=
  { predict := fun _ => "Insurance", proba := fun _ => 9/10 }

/-- An engine holding a trained model whose vectorizer was fitted on a
one-text training corpus. -/
def trainedEngine : Engine :=
  { rules := testRS
    vectorizerFit := some ["pharmacy bill payment".toList]
    ml_classifier := some dummyModel }

/-- One classified row labeled `Healthcare`. -/
def sampleHealthRow : OutRow :=
  { narration := "cvs pharmacy prescription".toList, amount := 45
    category := "Healthcare", confidence := 1/2, method := "rule-based" }

/-- One classified row labeled `Unknown`. -/
def sampleUnknownRow : OutRow :=
  { narration := "payment to acme corp".toList, amount := 100
    category := "Unknown", confidence := 0, method := "rule-based" }

/-- A one-row input batch. -/
def sampleDF : List InRow :=
  [{ narration := "cvs pharmacy prescription".toList, amount := 45 }]

/-- Five unknown narrations for a discovery run. -/
def insuranceTexts : List Text :=
  [ "geico auto insurance payment".toList
  , "state farm insurance premium".toList
  , "allstate policy renewal".toList
  , "progressive insurance monthly".toList
  , "nationwide insurance bill".toList ]

/-- A clustering oracle putting every sample in cluster 0. -/
def allZeroDbscan : List Text → List ℤ := fun ts => ts.map (fun _ => 0)

/-- A clustering oracle for a six-text run: cluster 0 plus one noise
point. -/
def sixLabelDbscan : List Text → List ℤ := fun _ => [0, 0, 0, -1, 0, 0]

/-- Six unknown narrations for a discovery run with one noise point. -/
def subscriptionTexts : List Text :=
  [ "netflix subscription monthly".toList
  , "spotify premium subscription".toList
  , "hulu streaming service".toList
  , "payment to acme corp".toList
  , "disney plus subscription".toList
  , "youtube premium subscription".toList ]

/-! Helper lemmas shared by the claim theorems. -/

/-- Lowercasing fixes the four whitespace characters. -/
theorem toLower_of_ws {c : Char} (h : c.isWhitespace) : c.toLower = c := by
  simp [Char.isWhitespace] at h
  rcases h with ((h | h) | h) | h <;> subst h <;> decide

/-- A character of a substring is a character of the string. -/
theorem mem_of_sub {kw tl : Text} {c : Char} (h : kw <:+: tl) (hc : c ∈ kw) :
    c ∈ tl := by
  obtain ⟨s, t, rfl⟩ := h
  simp [List.mem_append]
  tauto

/-- Substring occurrence survives extending the string on the right. -/
theorem sub_append {kw tl ext : Text} (h : kw <:+: tl) : kw <:+: tl ++ ext := by
  obtain ⟨s, t, rfl⟩ := h
  exact ⟨s, t ++ ext, by simp⟩

/-- Lowercasing distributes over concatenation. -/
theorem lower_append (a b : Text) : lower (a ++ b) = lower a ++ lower b :=
  List.map_append _ _ _

/-- Nonempty accumulated word: the splitter emits at least one word. -/
theorem wordsAux_ne_nil_of_cur (cur : Text) (t : Text) (h : cur ≠ []) :
    wordsAux cur t ≠ [] := by
  induction t generalizing cur with
  | nil => simp [wordsAux, h]
  | cons c cs ih =>
      by_cases hws : c.isWhitespace
      · simp [wordsAux, hws, h]
      · simpa [wordsAux, hws] using ih (c :: cur) (by simp)

/-- A text containing a non-whitespace character splits into at least one
word. -/
theorem words_ne_nil {t : Text} (h : ∃ c ∈ t, ¬ c.isWhitespace) :
    words t ≠ [] := by
  rw [words]
  induction t with
  | nil => simp at h
  | cons c cs ih =>
      by_cases hws : c.isWhitespace
      · obtain ⟨d, hd, hdw⟩ := h
        rcases List.mem_cons.mp hd with rfl | hd
        · exact absurd hws hdw
        · simpa [wordsAux, hws] using ih ⟨d, hd, hdw⟩
      · simpa [wordsAux, hws] using wordsAux_ne_nil_of_cur [c] cs (by simp)

/-- The fold underlying `pickBest` returns the seed or a list element. -/
theorem bestFold_mem (xs : List (String × ℚ)) (b : String × ℚ) :
    xs.foldl (fun a y => if a.2 < y.2 then y else a) b ∈ b :: xs := by
  induction xs generalizing b with
  | nil => simp
  | cons y ys ih =>
      simp only [List.foldl_cons]
      rcases List.mem_cons.mp (ih (if b.2 < y.2 then y else b)) with h1 | h1
      · by_cases hb : b.2 < y.2 <;> simp [hb] at h1 ⊢ <;> simp [h1, List.mem_cons]
      · simp [List.mem_cons, Or.inr (Or.inr h1)]

/-- The fold underlying `pickBest` dominates the seed and every list
element. -/
theorem bestFold_le (xs : List (String × ℚ)) (b : String × ℚ) :
    b.2 ≤ (xs.foldl (fun a y => if a.2 < y.2 then y else a) b).2 ∧
      ∀ y ∈ xs, y.2 ≤ (xs.foldl (fun a y => if a.2 < y.2 then y else a) b).2 := by
  induction xs generalizing b with
  | nil => simp
  | cons y ys ih =>
      simp only [List.foldl_cons]
      obtain ⟨h1, h2⟩ := ih (if b.2 < y.2 then y else b)
      have hb : b.2 ≤ (if b.2 < y.2 then y else b).2 := by
        by_cases hc : b.2 < y.2 <;> simp [hc]
        exact le_of_lt hc
      have hy : y.2 ≤ (if b.2 < y.2 then y else b).2 := by
        by_cases hc : b.2 < y.2 <;> simp [hc]
        exact le_of_not_lt hc
      refine ⟨le_trans hb h1, ?_⟩
      intro z hz
      rcases List.mem_cons.mp hz with rfl | hz
      · exact le_trans hy h1
      · exact h2 z hz

/-- `pickBest` returns an element of its input. -/
theorem pickBest_mem {l : List (String × ℚ)} {x : String × ℚ}
    (h : pickBest l = some x) : x ∈ l := by
  cases l with
  | nil => simp [pickBest] at h
  | cons a as =>
      simp only [pickBest, Option.some.injEq] at h
      exact h ▸ bestFold_mem as a

/-- `pickBest` returns a value-maximal element. -/
theorem pickBest_le {l : List (String × ℚ)} {x : String × ℚ}
    (h : pickBest l = some x) : ∀ y ∈ l, y.2 ≤ x.2 := by
  cases l with
  | nil => simp [pickBest] at h
  | cons a as =>
      simp only [pickBest, Option.some.injEq] at h
      subst h
      intro y hy
      rcases List.mem_cons.mp hy with rfl | hy
      · exact (bestFold_le as y).1
      · exact (bestFold_le as a).2 y hy

/-- `pickBest` is `none` exactly on the empty dictionary. -/
theorem pickBest_eq_none {l : List (String × ℚ)} :
    pickBest l = none ↔ l = [] := by
  cases l <;> simp [pickBest]

/-- Membership in the `matches` dictionary of `keyword_match`. -/
theorem mem_scoreList {rs : RuleSet} {tl : Text} {x : String × ℚ} :
    x ∈ scoreList rs tl ↔
      ∃ p ∈ rs.categories, 0 < catScore tl p.2 ∧ x = (p.1, weightedScore tl p.2) := by
  simp only [scoreList, List.mem_filterMap]
  constructor
  · rintro ⟨p, hp, hx⟩
    by_cases hs : 0 < catScore tl p.2
    · simp [hs] at hx
      exact ⟨p, hp, hs, hx.symm⟩
    · simp [hs] at hx
  · rintro ⟨p, hp, hs, rfl⟩
    exact ⟨p, hp, by simp [hs]⟩

/-- With nonnegative weights every `matches` value is nonnegative. -/
theorem scoreList_nonneg {rs : RuleSet} {tl : Text}
    (hw : ∀ p ∈ rs.categories, 0 ≤ p.2.weight.getD 1)
    {x : String × ℚ} (hx : x ∈ scoreList rs tl) : 0 ≤ x.2 := by
  obtain ⟨p, hp, -, rfl⟩ := mem_scoreList.mp hx
  exact mul_nonneg (by positivity) (hw p hp)

/-- Raw keyword counts only grow when the text is extended. -/
theorem catScore_mono (tl ext : Text) (r : CategoryRule) :
    catScore tl r ≤ catScore (tl ++ ext) r := by
  refine List.countP_mono_left ?_
  intro kw _ hkw
  simpa using sub_append (by simpa using hkw)

/-- Evaluation rule for `keyword_match` when exactly one category matched:
the dictionary maximum is that category. -/
theorem keyword_match_singleton {rs : RuleSet} {text : Text} {name : String}
    {v : ℚ} (h : scoreList rs (lower text) = [(name, v)]) :
    keyword_match rs text = (name, v / (wordCount text : ℚ)) := by
  simp [keyword_match, h, pickBest]

/-- A category's raw count is positive exactly when one of its keywords
occurs in the text. -/
theorem catScore_pos_iff {tl : Text} {r : CategoryRule} :
    0 < catScore tl r ↔ ∃ kw ∈ r.keywords, kw <:+: tl := by
  simp [catScore, List.countP_pos_iff]

/-! Claim theorems. -/

/-- Claim C2 (code evaluation): on the conftest rule set and the spec's own
no-overlap example text, `keyword_match` returns the PAIR
`("Unknown", 0.0)` — the function has no matched-keyword component at all,
so the claimed triple `("Unknown", 0.0, {})` does not exist in the code. -/
theorem keyword_match_acme_pair :
    keyword_match testRS "payment to acme corp".toList = ("Unknown", 0) := by
  decide

/-- Claim C4 (code evaluation): a discovery run REFITS the engine's shared
vectorizer — `discover_new_categories` calls
`self.vectorizer.fit_transform(unknown_texts)` — so the fitted vectorizer
state of a trained engine is replaced by the discovery corpus instead of
being left unchanged. -/
theorem discover_refits_vectorizer :
    (discover_new_categories allZeroDbscan trainedEngine insuranceTexts).1.vectorizerFit
        = some insuranceTexts ∧
      trainedEngine.vectorizerFit = some ["pharmacy bill payment".toList] ∧
      some insuranceTexts ≠ trainedEngine.vectorizerFit :=
  ⟨rfl, rfl, by decide⟩

/-- Claim C9 (code evaluation): on a six-text discovery run whose
clustering yields cluster 0 plus one noise point, the returned mapping
discards the noise point and maps `"NewCategory_0"` to the BARE list of
member narrations — no `size` and no `induced_keywords` component exists
in the value. -/
theorem discover_value_shape :
    (discover_new_categories sixLabelDbscan freshEngine subscriptionTexts).2 =
      [("NewCategory_0",
        [ "netflix subscription monthly".toList
        , "spotify premium subscription".toList
        , "hulu streaming service".toList
        , "disney plus subscription".toList
        , "youtube premium subscription".toList ])] := by
  decide

/-- Claim C6: when fewer than 10 rows remain after dropping `"Unknown"`
rows, `train_ml_model` is a no-op: it neither raises nor touches any model
state — the whole engine (vectorizer fit and classifier alike) is returned
exactly as it was, so an untrained model stays absent. -/
theorem train_ml_model_skip (trainF : List OutRow → MLModel) (e : Engine)
    (df : List OutRow)
    (h : (df.filter (fun r => r.category ≠ "Unknown")).length < 10) :
    train_ml_model trainF e df = e := by
  simp only [train_ml_model]
  rw [if_pos h]

/-- Witness for `train_ml_model_skip`: a one-labeled-row batch is below the
minimum sample count and training leaves a fresh engine untouched. -/
theorem train_ml_model_skip_witness :
    ([sampleHealthRow, sampleUnknownRow].filter
        (fun r => r.category ≠ "Unknown")).length < 10 ∧
      train_ml_model (fun _ => dummyModel) freshEngine
        [sampleHealthRow, sampleUnknownRow] = freshEngine :=
  ⟨by decide,
   train_ml_model_skip (fun _ => dummyModel) freshEngine
     [sampleHealthRow, sampleUnknownRow] (by decide)⟩

/-- Claim C1 counterexample: on the spec's own example rule set
(`Healthcare: {keywords: [pharmacy, doctor], weight: 1.5}`) the two-word
text `"pharmacy doctor"` gets confidence `2 * 1.5 / 2 = 1.5 > 1`: the code
performs no clipping to `[0,1]`. -/
theorem keyword_match_conf_gt_one :
    1 < (keyword_match healthRS "pharmacy doctor".toList).2 := by
  have h : scoreList healthRS (lower "pharmacy doctor".toList) =
      [("Healthcare", weightedScore (lower "pharmacy doctor".toList) healthRule)] := rfl
  have hc : catScore (lower "pharmacy doctor".toList) healthRule = 2 := by decide
  have hw : wordCount "pharmacy doctor".toList = 2 := by decide
  rw [keyword_match_singleton h]
  simp only [weightedScore]
  rw [hc, hw]
  norm_num [healthRule]

/-- Claim C1 (amended): for every rule set whose weights are nonnegative,
the confidence returned by `keyword_match` is nonnegative; the upper end of
the claimed interval does not hold, since no clipping is performed. -/
theorem keyword_match_conf_nonneg (rs : RuleSet) (text : Text)
    (hw : ∀ p ∈ rs.categories, 0 ≤ p.2.weight.getD 1) :
    0 ≤ (keyword_match rs text).2 := by
  rcases hpick : pickBest (scoreList rs (lower text)) with - | b
  · simp [keyword_match, hpick]
  · have hb : 0 ≤ b.2 := scoreList_nonneg hw (pickBest_mem hpick)
    simp only [keyword_match, hpick]
    exact div_nonneg hb (by positivity)

/-- Witness for `keyword_match_conf_nonneg` at the conftest rule set and a
concrete narration. -/
theorem keyword_match_conf_nonneg_witness :
    (∀ p ∈ testRS.categories, 0 ≤ p.2.weight.getD 1) ∧
      0 ≤ (keyword_match testRS "walmart grocery shopping".toList).2 := by
  have hw : ∀ p ∈ testRS.categories, 0 ≤ p.2.weight.getD 1 := by
    intro p hp
    simp only [testRS, List.mem_cons, List.not_mem_nil, or_false] at hp
    rcases hp with rfl | rfl | rfl <;> norm_num [hcRule, groRule, traRule]
  exact ⟨hw, keyword_match_conf_nonneg testRS "walmart grocery shopping".toList hw⟩

/-- With nonnegative weights, extending the text never lowers the best raw
weighted score. -/
theorem bestScore_le_append (rs : RuleSet) (text ext : Text)
    (hw : ∀ p ∈ rs.categories, 0 ≤ p.2.weight.getD 1) :
    bestScore rs text ≤ bestScore rs (text ++ ext) := by
  rcases hpick : pickBest (scoreList rs (lower text)) with - | b
  · rcases hpick2 : pickBest (scoreList rs (lower (text ++ ext))) with - | b2
    · simp [bestScore, hpick, hpick2]
    · simp only [bestScore, hpick, hpick2]
      exact scoreList_nonneg hw (pickBest_mem hpick2)
  · obtain ⟨p, hp, hpos, rfl⟩ := mem_scoreList.mp (pickBest_mem hpick)
    have hmono : catScore (lower text) p.2 ≤ catScore (lower (text ++ ext)) p.2 := by
      rw [lower_append]
      exact catScore_mono (lower text) (lower ext) p.2
    have hpos2 : 0 < catScore (lower (text ++ ext)) p.2 := lt_of_lt_of_le hpos hmono
    have hmem2 : (p.1, weightedScore (lower (text ++ ext)) p.2) ∈
        scoreList rs (lower (text ++ ext)) :=
      mem_scoreList.mpr ⟨p, hp, hpos2, rfl⟩
    rcases hpick2 : pickBest (scoreList rs (lower (text ++ ext))) with - | b2
    · rw [pickBest_eq_none] at hpick2
      rw [hpick2] at hmem2
      simp at hmem2
    · have h1 : weightedScore (lower (text ++ ext)) p.2 ≤ b2.2 :=
        pickBest_le hpick2 _ hmem2
      have h2 : weightedScore (lower text) p.2 ≤ weightedScore (lower (text ++ ext)) p.2 := by
        unfold weightedScore
        exact mul_le_mul_of_nonneg_right (by exact_mod_cast hmono) (hw p hp)
      simp only [bestScore, hpick, hpick2]
      exact le_trans h2 h1

/-- Claim C7 counterexample: on the one-category rule set
`C: {keywords: [a, b, c]}`, the text `"ab"` has confidence `2/1 = 2`
(both `a` and `b` occur as substrings of the single word), while the
extension `"ab c"` by the matching keyword `c` has confidence `3/2 < 2`:
adding one more matching keyword DECREASED the confidence. -/
theorem confidence_not_monotone :
    "c".toList ∈ monoRule.keywords ∧
      "ab c".toList = "ab".toList ++ ' ' :: "c".toList ∧
      (keyword_match monoRS "ab c".toList).2 < (keyword_match monoRS "ab".toList).2 := by
  refine ⟨by decide, by decide, ?_⟩
  have h1 : scoreList monoRS (lower "ab".toList) =
      [("C", weightedScore (lower "ab".toList) monoRule)] := rfl
  have h2 : scoreList monoRS (lower "ab c".toList) =
      [("C", weightedScore (lower "ab c".toList) monoRule)] := rfl
  have hc1 : catScore (lower "ab".toList) monoRule = 2 := by decide
  have hc2 : catScore (lower "ab c".toList) monoRule = 3 := by decide
  have hw1 : wordCount "ab".toList = 1 := by decide
  have hw2 : wordCount "ab c".toList = 2 := by decide
  rw [keyword_match_singleton h1, keyword_match_singleton h2]
  simp only [weightedScore]
  rw [hc1, hc2, hw1, hw2]
  norm_num [monoRule]

/-- Claim C7 (amended): with nonnegative weights, extending a text by one
additional matching keyword (appended as a new whitespace-separated word)
never decreases the best raw weighted score; the length-normalized
confidence, by contrast, can drop because the word count grows. -/
theorem bestScore_monotone (rs : RuleSet) (text kw : Text)
    (hw : ∀ p ∈ rs.categories, 0 ≤ p.2.weight.getD 1)
    (hkw : ∃ p ∈ rs.categories, kw ∈ p.2.keywords) :
    bestScore rs text ≤ bestScore rs (text ++ ' ' :: kw) :=
  bestScore_le_append rs text (' ' :: kw) hw

/-- Witness for `bestScore_monotone` on the monotonicity counterexample's
rule set: the raw score does grow from `"ab"` to `"ab c"`. -/
theorem bestScore_monotone_witness :
    (∃ p ∈ monoRS.categories, "c".toList ∈ p.2.keywords) ∧
      bestScore monoRS "ab".toList ≤ bestScore monoRS ("ab".toList ++ ' ' :: "c".toList) := by
  have hw : ∀ p ∈ monoRS.categories, 0 ≤ p.2.weight.getD 1 := by
    intro p hp
    simp only [monoRS, List.mem_cons, List.not_mem_nil, or_false] at hp
    subst hp
    norm_num [monoRule]
  exact ⟨by decide, bestScore_monotone monoRS "ab".toList "c".toList hw (by decide)⟩

/-- Claim C8: whenever at least one category keyword occurs in the
lowercased text (and weights are nonnegative, as the rule-set invariant
requires), `keyword_match` returns the name of a category of maximal
weighted score — score = (number of its keywords occurring in the
lowercased text) × (its weight, default 1) — and the confidence is that
score divided by the whitespace word count of the text. -/
theorem keyword_match_argmax (rs : RuleSet) (text : Text)
    (hw : ∀ p ∈ rs.categories, 0 ≤ p.2.weight.getD 1)
    (hocc : ∃ p ∈ rs.categories, ∃ kw ∈ p.2.keywords, kw <:+: lower text) :
    ∃ p ∈ rs.categories,
      (keyword_match rs text).1 = p.1 ∧
      (keyword_match rs text).2 = weightedScore (lower text) p.2 / (wordCount text : ℚ) ∧
      ∀ q ∈ rs.categories, weightedScore (lower text) q.2 ≤ weightedScore (lower text) p.2 := by
  obtain ⟨p0, hp0, hkw0⟩ := hocc
  have hpos0 : 0 < catScore (lower text) p0.2 := catScore_pos_iff.mpr hkw0
  have hne : scoreList rs (lower text) ≠ [] := by
    intro hnil
    have := mem_scoreList.mpr ⟨p0, hp0, hpos0, rfl⟩
    rw [hnil] at this
    simp at this
  rcases hpick : pickBest (scoreList rs (lower text)) with - | b
  · exact absurd (pickBest_eq_none.mp hpick) hne
  · obtain ⟨p, hp, hpos, rfl⟩ := mem_scoreList.mp (pickBest_mem hpick)
    refine ⟨p, hp, ?_, ?_, ?_⟩
    · simp [keyword_match, hpick]
    · simp [keyword_match, hpick]
    · intro q hq
      by_cases hqs : 0 < catScore (lower text) q.2
      · exact pickBest_le hpick _ (mem_scoreList.mpr ⟨q, hq, hqs, rfl⟩)
      · have hz : catScore (lower text) q.2 = 0 := Nat.eq_zero_of_not_pos hqs
        have : weightedScore (lower text) q.2 = 0 := by
          simp [weightedScore, hz]
        rw [this]
        exact scoreList_nonneg hw (pickBest_mem hpick)

/-- Witness for `keyword_match_argmax` on the spec's worked example:
`Healthcare: {keywords: [pharmacy, doctor], weight: 1.5}` with input
`"cvs pharmacy prescription pickup"` (4 words, 1 matching keyword) yields
`("Healthcare", 1.5/4 = 0.375)`, the argmax conclusion included. -/
theorem keyword_match_argmax_witness :
    keyword_match healthRS "cvs pharmacy prescription pickup".toList = ("Healthcare", 3/8) ∧
      ∃ p ∈ healthRS.categories,
        (keyword_match healthRS "cvs pharmacy prescription pickup".toList).1 = p.1 ∧
        (keyword_match healthRS "cvs pharmacy prescription pickup".toList).2 =
          weightedScore (lower "cvs pharmacy prescription pickup".toList) p.2 /
            (wordCount "cvs pharmacy prescription pickup".toList : ℚ) ∧
        ∀ q ∈ healthRS.categories,
          weightedScore (lower "cvs pharmacy prescription pickup".toList) q.2 ≤
            weightedScore (lower "cvs pharmacy prescription pickup".toList) p.2 := by
  have hw : ∀ p ∈ healthRS.categories, 0 ≤ p.2.weight.getD 1 := by
    intro p hp
    simp only [healthRS, List.mem_cons, List.not_mem_nil, or_false] at hp
    subst hp
    norm_num [healthRule]
  refine ⟨?_, keyword_match_argmax healthRS "cvs pharmacy prescription pickup".toList
    hw (by decide)⟩
  have h : scoreList healthRS (lower "cvs pharmacy prescription pickup".toList) =
      [("Healthcare", weightedScore (lower "cvs pharmacy prescription pickup".toList)
        healthRule)] := rfl
  have hc : catScore (lower "cvs pharmacy prescription pickup".toList) healthRule = 1 := by
    decide
  have hwc : wordCount "cvs pharmacy prescription pickup".toList = 4 := by decide
  rw [keyword_match_singleton h]
  simp only [weightedScore, Prod.mk.injEq]
  refine ⟨trivial, ?_⟩
  rw [hc, hwc]
  norm_num [healthRule]

/-- If every keyword of the rule set contains a non-whitespace character
and some category matched the lowercased text, the text splits into at
least one word. -/
theorem wordCount_pos_of_match (rs : RuleSet) (text : Text)
    (hkw : ∀ p ∈ rs.categories, ∀ kw ∈ p.2.keywords, ∃ c ∈ kw, ¬ c.isWhitespace)
    {x : String × ℚ} (hx : x ∈ scoreList rs (lower text)) :
    wordCount text ≠ 0 := by
  obtain ⟨p, hp, hpos, -⟩ := mem_scoreList.mp hx
  obtain ⟨kw, hkwmem, hsub⟩ := catScore_pos_iff.mp hpos
  obtain ⟨c, hc, hcw⟩ := hkw p hp kw hkwmem
  have hcl : c ∈ lower text := mem_of_sub hsub hc
  obtain ⟨c2, hc2, hc2l⟩ := List.mem_map.mp hcl
  have hc2w : ¬ c2.isWhitespace := by
    intro hws
    exact hcw (by rw [← hc2l, toLower_of_ws hws]; exact hws)
  intro hzero
  exact words_ne_nil ⟨c2, hc2, hc2w⟩ (List.length_eq_zero.mp hzero)

/-- Claim C10: provided every keyword of the rule set contains a
non-whitespace character, `keyword_match` is total — the division by the
word count is only reached when some keyword occurred, which forces a
nonzero word count (`keyword_matchChecked` marks the `ZeroDivisionError`
sites with `none` and here always agrees with `keyword_match`) — and on a
whitespace-only (in particular empty) text the result is
`("Unknown", 0.0)`. -/
theorem keyword_match_total (rs : RuleSet) (text : Text)
    (hkw : ∀ p ∈ rs.categories, ∀ kw ∈ p.2.keywords, ∃ c ∈ kw, ¬ c.isWhitespace) :
    keyword_matchChecked rs text = some (keyword_match rs text) ∧
      ((∀ c ∈ text, c.isWhitespace) → keyword_match rs text = ("Unknown", 0)) := by
  constructor
  · rcases hpick : pickBest (scoreList rs (lower text)) with - | b
    · simp [keyword_match, keyword_matchChecked, hpick]
    · have hwc : wordCount text ≠ 0 :=
        wordCount_pos_of_match rs text hkw (pickBest_mem hpick)
      simp [keyword_match, keyword_matchChecked, hpick, hwc]
  · intro hws
    have hnil : scoreList rs (lower text) = [] := by
      rw [scoreList, List.filterMap_eq_nil_iff]
      intro p hp
      have hz : ¬ 0 < catScore (lower text) p.2 := by
        rw [catScore_pos_iff]
        rintro ⟨kw, hkwmem, hsub⟩
        obtain ⟨c, hc, hcw⟩ := hkw p hp kw hkwmem
        have hcl : c ∈ lower text := mem_of_sub hsub hc
        obtain ⟨c2, hc2, hc2l⟩ := List.mem_map.mp hcl
        have hc2w : c2.isWhitespace := hws c2 hc2
        exact hcw (by rw [← hc2l, toLower_of_ws hc2w]; exact hc2w)
      simp [hz]
    simp [keyword_match, hnil, pickBest]

/-- Witness for `keyword_match_total`: on the conftest rule set (all of
whose keywords are non-blank) a whitespace-only text neither divides by
zero nor matches — the result is `("Unknown", 0.0)`. -/
theorem keyword_match_total_witness :
    keyword_matchChecked testRS "   ".toList = some (keyword_match testRS "   ".toList) ∧
      keyword_match testRS "   ".toList = ("Unknown", 0) :=
  ⟨(keyword_match_total testRS "   ".toList (by decide)).1,
   (keyword_match_total testRS "   ".toList (by decide)).2 (by decide)⟩

/-- Claim C5: a batch row's category, confidence and method are overwritten
by the learned fallback exactly when a trained model exists and that row's
rule-based confidence is strictly below `unknown_threshold`; every other
row keeps its rule-based result (whose method is `"rule-based"`)
unchanged, and with no trained model the whole batch stays rule-based
(a no-op, not an error). -/
theorem classify_batch_fallback_frame (e : Engine) (df : List InRow) :
    classify_batch e df =
        (df.map (ruleRow e.rules)).map (fun r =>
          e.ml_classifier.elim r (fun m =>
            if r.confidence < e.rules.unknown_threshold then mlRow m r else r)) ∧
      (∀ r ∈ df.map (ruleRow e.rules), r.method = "rule-based") ∧
      (e.ml_classifier = none → classify_batch e df = df.map (ruleRow e.rules)) := by
  have hmain : classify_batch e df =
      (df.map (ruleRow e.rules)).map (fun r =>
        e.ml_classifier.elim r (fun m =>
          if r.confidence < e.rules.unknown_threshold then mlRow m r else r)) := by
    rcases hm : e.ml_classifier with - | m
    · simp [classify_batch, hm]
    · simp only [classify_batch, hm, Option.elim_some]
      by_cases hlen : 0 < ((df.map (ruleRow e.rules)).filter
          (fun r => r.confidence < e.rules.unknown_threshold)).length
      · simp [hlen]
      · rw [if_neg hlen]
        have hnone : ∀ r ∈ df.map (ruleRow e.rules),
            ¬ r.confidence < e.rules.unknown_threshold := by
          intro r hr hc
          refine hlen (List.length_pos.mpr ?_)
          intro hfil
          have : r ∈ ((df.map (ruleRow e.rules)).filter
              (fun r => r.confidence < e.rules.unknown_threshold)) :=
            List.mem_filter.mpr ⟨hr, by simpa using hc⟩
          rw [hfil] at this
          simp at this
        calc df.map (ruleRow e.rules)
            = (df.map (ruleRow e.rules)).map id := (List.map_id _).symm
          _ = _ := List.map_congr_left (fun r hr => by simp [hnone r hr])
  refine ⟨hmain, ?_, ?_⟩
  · intro r hr
    obtain ⟨a, -, rfl⟩ := List.mem_map.mp hr
    rfl
  · intro hm
    simpa [hm] using hmain

/-- Witness for `classify_batch_fallback_frame`: on a never-trained engine
the batch result is exactly the rule-based rows. -/
theorem classify_batch_fallback_frame_witness :
    classify_batch freshEngine sampleDF = sampleDF.map (ruleRow freshEngine.rules) :=
  (classify_batch_fallback_frame freshEngine sampleDF).2.2 rfl

/-- Claim C3 (code evaluation): the rows `classify_batch` produces carry
exactly the fields `narration`, `amount`, `category`, `confidence`,
`method` — as the `OutRow` shape of this embedding records, no
`needs_review` flag is computed anywhere (and the engine holds no
`review_threshold` at all), for batch rows and a fortiori for the
nonexistent single-item path. -/
theorem classify_batch_no_review_field :
    classify_batch freshEngine sampleDF =
      [{ narration := "cvs pharmacy prescription".toList, amount := 45,
         category := "Healthcare", confidence := 1/2, method := "rule-based" }] := by
  have h : scoreList testRS (lower "cvs pharmacy prescription".toList) =
      [("Healthcare", weightedScore (lower "cvs pharmacy prescription".toList) hcRule)] :=
    rfl
  have hc : catScore (lower "cvs pharmacy prescription".toList) hcRule = 1 := by decide
  have hwc : wordCount "cvs pharmacy prescription".toList = 3 := by decide
  have hkm : keyword_match testRS "cvs pharmacy prescription".toList = ("Healthcare", 1/2) := by
    rw [keyword_match_singleton h]
    simp only [weightedScore, Prod.mk.injEq]
    refine ⟨trivial, ?_⟩
    rw [hc, hwc]
    norm_num [hcRule]
  show (sampleDF.map (ruleRow testRS)) = _
  simp only [sampleDF, List.map_cons, List.map_nil, ruleRow, hkm]

end NERC
